import Mathlib

set_option maxHeartbeats 1000000

/-
Verification of the geoarrow core: a shallow embedding of the bounding-rect
reducer, the WKB array type with its offset-width conversions, the WKB codec
dispatch and the WKT ingestion path, with proofs of the specified properties.
-/

namespace GeoArrow

/-- Model of `f64` as manipulated by `BoundingRect` (bounding_rect.rs): the
source only compares values (`<`, `>`, `==`, `min`, `max`) and uses the two
infinities as sentinels, so rationals extended with `⊥` (= `-∞`) and `⊤`
(= `+∞`) embed every non-NaN behaviour faithfully. -/
abbrev F := WithBot (WithTop ℚ)

/-- A finite `f64` value. -/
def fq (q : ℚ) : F := ((q : WithTop ℚ) : WithBot (WithTop ℚ))

/-- The `BoundingRect` accumulator struct (bounding_rect.rs lines 9-17). -/
@[ext]
structure BoundingRect where
  minx : F
  miny : F
  minz : F
  maxx : F
  maxy : F
  maxz : F
deriving Repr, DecidableEq

namespace BoundingRect

/-- `BoundingRect::new` (lines 21-30): every min at `+∞`, every max at `-∞`. -/
def new : BoundingRect := ⟨⊤, ⊤, ⊤, ⊥, ⊥, ⊥⟩

/-- `BoundingRect::minz` (lines 40-46): `None` while the `+∞` sentinel is
unchanged. (Named `minzOpt` here because the raw field is already `minz`.) -/
def minzOpt (r : BoundingRect) : Option F :=
  if r.minz = ⊤ then none else some r.minz

/-- `BoundingRect::maxz` (lines 56-62): `None` while the `-∞` sentinel is
unchanged. -/
def maxzOpt (r : BoundingRect) : Option F :=
  if r.maxz = ⊥ then none else some r.maxz

/-- A coordinate as consumed by `add_coord`: `x`, `y` and the optional third
component `coord.nth(2)`. -/
structure Coord where
  x : F
  y : F
  z : Option F
deriving Repr, DecidableEq

/-- `BoundingRect::add_coord` (lines 64-92), with the source's exact sequence
of strict comparisons. -/
def addCoord (r : BoundingRect) (c : Coord) : BoundingRect :=
  let r1 := if c.x < r.minx then { r with minx := c.x } else r
  let r2 := if c.y < r1.miny then { r1 with miny := c.y } else r1
  let r3 := match c.z with
    | some z => if z < r2.minz then { r2 with minz := z } else r2
    | none => r2
  let r4 := if c.x > r3.maxx then { r3 with maxx := c.x } else r3
  let r5 := if c.y > r4.maxy then { r4 with maxy := c.y } else r4
  match c.z with
    | some z => if z > r5.maxz then { r5 with maxz := z } else r5
    | none => r5

/-- `RectTrait::min` for `BoundingRect` (lines 205-210): a two-dimensional
`geo::Coord`, so the third component is absent. -/
def minCorner (r : BoundingRect) : Coord := ⟨r.minx, r.miny, none⟩

/-- `RectTrait::max` for `BoundingRect` (lines 212-217). -/
def maxCorner (r : BoundingRect) : Coord := ⟨r.maxx, r.maxy, none⟩

/-- `BoundingRect::add_rect` (lines 162-165): add the rect's min and max
corners as coordinates. -/
def addRect (r other : BoundingRect) : BoundingRect :=
  (r.addCoord other.minCorner).addCoord other.maxCorner

/-- `BoundingRect::update` (lines 167-169): delegates to `add_rect`. -/
def update (r other : BoundingRect) : BoundingRect := r.addRect other

/-- `impl Add for BoundingRect` (lines 178-191): per-axis min/max merge. -/
def merge (a b : BoundingRect) : BoundingRect :=
  ⟨min a.minx b.minx, min a.miny b.miny, min a.minz b.minz,
   max a.maxx b.maxx, max a.maxy b.maxy, max a.maxz b.maxz⟩

instance : Add BoundingRect := ⟨merge⟩

theorem add_def (a b : BoundingRect) : a + b = merge a b := rfl

end BoundingRect

end GeoArrow

namespace GeoArrow

/-- C4: the `+` operation on `BoundingRect` is associative and commutative. -/
theorem add_assoc_comm (a b c : BoundingRect) :
    (a + b) + c = a + (b + c) ∧ a + b = b + a := by
  constructor
  · cases a; cases b; cases c
    simp [BoundingRect.add_def, BoundingRect.merge, min_assoc, max_assoc]
  · cases a; cases b
    simp [BoundingRect.add_def, BoundingRect.merge, min_comm, max_comm]

/-- C5: adding the 2-D coordinates `(0,0)` and `(10,10)` to a fresh
`BoundingRect` yields min `(0,0)`, max `(10,10)` and an absent z axis. -/
theorem scenario_c_bounding_rect :
    (BoundingRect.new.addCoord ⟨fq 0, fq 0, none⟩).addCoord
        ⟨fq 10, fq 10, none⟩ =
      ⟨fq 0, fq 0, ⊤, fq 10, fq 10, ⊥⟩ ∧
    BoundingRect.minzOpt ((BoundingRect.new.addCoord
        ⟨fq 0, fq 0, none⟩).addCoord ⟨fq 10, fq 10, none⟩) = none ∧
    BoundingRect.maxzOpt ((BoundingRect.new.addCoord
        ⟨fq 0, fq 0, none⟩).addCoord ⟨fq 10, fq 10, none⟩) = none := by
  decide

/-- A concrete accumulator covering the unit cube, used to separate
`update` from `+`. -/
def unitBox : BoundingRect := ⟨fq 0, fq 0, fq 0, fq 1, fq 1, fq 1⟩

/-- C3 counterexample: `update` is not the `+` merge — updating a fresh
accumulator with the unit cube drops the z axis, while `+` merges it. -/
theorem update_ne_add :
    BoundingRect.update BoundingRect.new unitBox ≠ BoundingRect.new + unitBox := by
  decide

/-- The source's `if v < m { m = v }` update is the lattice `min`. -/
theorem if_lt_eq_min (a b : F) : (if b < a then b else a) = min a b := by
  rcases lt_or_le b a with h | h
  · rw [if_pos h, min_eq_right h.le]
  · rw [if_neg (not_lt.mpr h), min_eq_left h]

/-- The source's `if v > m { m = v }` update is the lattice `max`. -/
theorem if_gt_eq_max (a b : F) : (if a < b then b else a) = max a b := by
  rcases lt_or_le a b with h | h
  · rw [if_pos h, max_eq_right h.le]
  · rw [if_neg (not_lt.mpr h), max_eq_left h]

/-- Closed form of `add_coord` on a coordinate with no third component. -/
theorem addCoord_none (r : BoundingRect) (x y : F) :
    r.addCoord ⟨x, y, none⟩ =
      ⟨min r.minx x, min r.miny y, r.minz, max r.maxx x, max r.maxy y,
        r.maxz⟩ := by
  ext <;>
    simp [BoundingRect.addCoord, apply_ite BoundingRect.minx,
      apply_ite BoundingRect.miny, apply_ite BoundingRect.minz,
      apply_ite BoundingRect.maxx, apply_ite BoundingRect.maxy,
      apply_ite BoundingRect.maxz, if_lt_eq_min, if_gt_eq_max]

/-- C3 (amended): when the other accumulator's x/y sentinels are not inverted,
`update` performs the per-axis min/max merge on the x and y axes only, and
leaves the z fields untouched. -/
theorem update_eq_merge_xy (a b : BoundingRect)
    (hx : b.minx ≤ b.maxx) (hy : b.miny ≤ b.maxy) :
    a.update b = ⟨min a.minx b.minx, min a.miny b.miny, a.minz,
      max a.maxx b.maxx, max a.maxy b.maxy, a.maxz⟩ := by
  simp only [BoundingRect.update, BoundingRect.addRect, BoundingRect.minCorner,
    BoundingRect.maxCorner, addCoord_none]
  simp [BoundingRect.mk.injEq, min_assoc, max_assoc, min_eq_left hx,
    min_eq_left hy, max_eq_right hx, max_eq_right hy]

/-- Witness for the amended C3 at a concrete input. -/
theorem update_eq_merge_xy_witness :
    unitBox.minx ≤ unitBox.maxx ∧ unitBox.miny ≤ unitBox.maxy ∧
      BoundingRect.update BoundingRect.new unitBox =
        ⟨min BoundingRect.new.minx unitBox.minx,
         min BoundingRect.new.miny unitBox.miny, BoundingRect.new.minz,
         max BoundingRect.new.maxx unitBox.maxx,
         max BoundingRect.new.maxy unitBox.maxy, BoundingRect.new.maxz⟩ :=
  ⟨by decide, by decide,
    update_eq_merge_xy BoundingRect.new unitBox (by decide) (by decide)⟩

/-- `ArrayMetadata` (array/metadata.rs; only declared and consumed by the
files under verification): the extension metadata carried by every array —
an optional CRS string and optional edge interpretation. The claims only
concern its propagation, never its contents. -/
structure ArrayMetadata where
  crs : Option String := none
  edges : Option String := none
deriving Repr, DecidableEq, Inhabited

/-- `GeoArrowError` (error.rs lines 11-93), restricted to the variants the
modelled operations produce. -/
inductive GeoArrowError where
  | incorrectType (msg : String)
  | notYetImplemented (msg : String)
  | general (msg : String)
  | overflow
deriving Repr, DecidableEq

/-- Whether a fallible result succeeded. -/
def isOkE {α : Type} (r : Except GeoArrowError α) : Bool :=
  match r with
  | .ok _ => true
  | .error _ => false

/-- Buffer-level model of `WKBArray<O>` (array/binary/array.rs lines 26-31):
the wrapped `GenericBinaryArray` contributes the offsets buffer, the flat
value bytes and the optional validity bitmap; `data_type` is `WKB` or
`LargeWKB` according to the offset width (`Self::new`, lines 36-47), modelled
by the `large` flag. Offset values are mathematical integers; width
well-formedness enters the theorems as hypotheses. -/
structure WKBArray where
  offsets : List Int
  values : List Nat
  nulls : Option (List Bool)
  metadata : ArrayMetadata
  large : Bool
deriving Repr, DecidableEq

namespace WKBArray

/-- Logical length: one fewer than the offset count. -/
def len (a : WKBArray) : Nat := a.offsets.length - 1

/-- `WKBArray::slice` (lines 85-95): panics (modelled as `none`) unless
`offset + length <= len`; otherwise slices the wrapped binary array — a
window into the offsets and validity, values shared — keeping `data_type`
and `metadata`. -/
def slice (a : WKBArray) (offset length : Nat) : Option WKBArray :=
  if offset + length ≤ a.len then
    some { a with
      offsets := (a.offsets.drop offset).take (length + 1),
      nulls := a.nulls.map (fun v => (v.drop offset).take length) }
  else none

/-- `WKBArray::with_metadata` (lines 122-126): clone, replace the metadata
field. -/
def withMetadata (a : WKBArray) (m : ArrayMetadata) : WKBArray :=
  { a with metadata := m }

end WKBArray

/-- Modelled from the spec: `offsets_buffer_i32_to_i64` (array/util.rs is not
under src/) — "widening 32→64 is always safe and lossless" (§4.1): every
offset value is carried over unchanged. -/
def offsetsI32ToI64 (offsets : List Int) : List Int := offsets

/-- Modelled from the spec: `offsets_buffer_i64_to_i32` (array/util.rs is not
under src/) — "Narrowing a 64-bit OffsetBuffer to 32-bit re-validates that
the final offset fits in 32 bits, failing with an Overflow error if not"
(§4.1). -/
def offsetsI64ToI32 (offsets : List Int) : Except GeoArrowError (List Int) :=
  if -(2 ^ 31) ≤ offsets.getLast?.getD 0 ∧ offsets.getLast?.getD 0 ≤ 2 ^ 31 - 1
  then .ok offsets
  else .error .overflow

/-- `From<WKBArray<i32>> for WKBArray<i64>` (array/binary/array.rs lines
276-285): convert the offsets buffer and rebuild through `Self::new`, which
re-derives the `LargeWKB` tag; values, validity and metadata carry over. -/
def WKBArray.toI64 (a : WKBArray) : WKBArray :=
  { a with offsets := offsetsI32ToI64 a.offsets, large := true }

/-- `TryFrom<WKBArray<i64>> for WKBArray<i32>` (array/binary/array.rs lines
287-298): narrow the offsets buffer (may fail with Overflow), rebuild through
`Self::new` re-deriving the `WKB` tag. -/
def WKBArray.toI32 (a : WKBArray) : Except GeoArrowError WKBArray :=
  (offsetsI64ToI32 a.offsets).map fun o =>
    { a with offsets := o, large := false }

/-- C2: narrowing a 64-bit WKBArray succeeds exactly when the final offset is
at most `2^31 - 1`, in which case widening back restores the original; past
the bound it fails with Overflow; widening a 32-bit array always succeeds and
narrowing the widened array restores it. -/
theorem offset_width_conversion (a b : WKBArray)
    (hne : a.offsets ≠ []) (hnn : ∀ x ∈ a.offsets, 0 ≤ x)
    (hlarge : a.large = true)
    (hbne : b.offsets ≠ []) (hbnn : ∀ x ∈ b.offsets, 0 ≤ x)
    (hbsmall : b.large = false)
    (hbfit : ∀ x ∈ b.offsets, x ≤ 2 ^ 31 - 1) :
    (isOkE a.toI32 = true ↔ a.offsets.getLast hne ≤ 2 ^ 31 - 1) ∧
    (a.offsets.getLast hne ≤ 2 ^ 31 - 1 →
      a.toI32 = .ok { a with large := false } ∧
        WKBArray.toI64 { a with large := false } = a) ∧
    (2 ^ 31 - 1 < a.offsets.getLast hne → a.toI32 = .error .overflow) ∧
    b.toI64.toI32 = .ok b := by
  have hmem : a.offsets.getLast hne ∈ a.offsets := List.getLast_mem hne
  have hlo : (0 : Int) ≤ a.offsets.getLast hne := hnn _ hmem
  have hlast : a.offsets.getLast?.getD 0 = a.offsets.getLast hne := by
    rw [List.getLast?_eq_getLast _ hne]; rfl
  have hbmem : b.offsets.getLast hbne ∈ b.offsets := List.getLast_mem hbne
  have hblast : b.offsets.getLast?.getD 0 = b.offsets.getLast hbne := by
    rw [List.getLast?_eq_getLast _ hbne]; rfl
  refine ⟨?_, ?_, ?_, ?_⟩
  · rw [WKBArray.toI32, offsetsI64ToI32, hlast]
    constructor
    · intro h
      by_contra hgt
      rw [if_neg (by omega), Except.map] at h
      exact Bool.false_ne_true h
    · intro h
      rw [if_pos (by omega), Except.map]
      rfl
  · intro h
    constructor
    · rw [WKBArray.toI32, offsetsI64ToI32, hlast, if_pos (by omega),
        Except.map]
    · cases a
      simp_all [WKBArray.toI64, offsetsI32ToI64]
  · intro h
    rw [WKBArray.toI32, offsetsI64ToI32, hlast, if_neg (by omega),
      Except.map]
  · have h2 := hbfit _ hbmem
    have h0 := hbnn _ hbmem
    have h1 : b.toI64 = { b with large := true } := rfl
    rw [h1, WKBArray.toI32, offsetsI64ToI32]
    simp only [hblast]
    rw [if_pos (by omega), Except.map]
    cases b
    simp_all

/-- Witness for C2 at concrete 64- and 32-bit arrays. -/
theorem offset_width_conversion_witness :
    (([0, 5] : List Int) ≠ [] ∧ (∀ x ∈ ([0, 5] : List Int), 0 ≤ x)) ∧
      isOkE (WKBArray.toI32 ⟨[0, 5], [1, 2, 3, 4, 5], none, default, true⟩) =
        true := by
  refine ⟨⟨by decide, by decide⟩, ?_⟩
  have h := offset_width_conversion
    ⟨[0, 5], [1, 2, 3, 4, 5], none, default, true⟩
    ⟨[0, 3], [7, 8, 9], none, default, false⟩
    (by decide) (by decide) rfl (by decide) (by decide) rfl (by decide)
  exact h.1.mpr (by decide)

/-- C10: `with_metadata` changes only the metadata field — payload bytes,
offsets, validity, length and the WKB/LargeWKB tag are untouched, and the
metadata becomes the given value. -/
theorem with_metadata_frame (a : WKBArray) (m : ArrayMetadata) :
    (a.withMetadata m).values = a.values ∧
    (a.withMetadata m).offsets = a.offsets ∧
    (a.withMetadata m).nulls = a.nulls ∧
    (a.withMetadata m).len = a.len ∧
    (a.withMetadata m).large = a.large ∧
    (a.withMetadata m).metadata = m := by
  simp [WKBArray.withMetadata, WKBArray.len]

/-
The ISO WKB codec. The dispatch lives in src (io/wkb/api.rs); the byte-level
reader and writer and the per-kind builders live outside src/ and are
modelled from the spec (§4.3, §6): standard ISO-flavor WKB, little-endian as
emitted by the writer, 2-D and 3-D, one header (byte order byte + uint32
type code, +1000 for Z) per geometry, uint32 element counts, and 8-byte
coordinate components kept abstract as 64-bit words.
-/

/-- Little-endian byte list of a `k`-byte unsigned integer. -/
def leBytes : Nat → Nat → List Nat
  | 0, _ => []
  | k + 1, n => n % 256 :: leBytes k (n / 256)

/-- Value of a little-endian byte list. -/
def leVal : List Nat → Nat
  | [] => 0
  | b :: bs => b + 256 * leVal bs

theorem leBytes_leVal (w : List Nat) (h : ∀ b ∈ w, b < 256) :
    leBytes w.length (leVal w) = w := by
  induction w with
  | nil => rfl
  | cons b bs ih =>
    have hb : b < 256 := h b (List.mem_cons_self b bs)
    have hrest : ∀ x ∈ bs, x < 256 := fun x hx => h x (List.mem_cons_of_mem _ hx)
    simp [leBytes, leVal, Nat.add_mul_div_left, Nat.div_eq_of_lt hb,
      Nat.mod_eq_of_lt hb, Nat.add_mul_mod_self_left, ih hrest]

/-- Read a `k`-byte little-endian word off the front of a byte stream,
validating that the bytes are in range. -/
def readWord (k : Nat) (bs : List Nat) : Option (Nat × List Nat) :=
  if k ≤ bs.length ∧ (bs.take k).all (fun b => b < 256)
  then some (leVal (bs.take k), bs.drop k)
  else none

theorem readWord_spec {k : Nat} {bs : List Nat} {n : Nat} {rest : List Nat}
    (h : readWord k bs = some (n, rest)) : leBytes k n ++ rest = bs := by
  rw [readWord] at h
  split_ifs at h with hc
  · obtain ⟨hn, hrest⟩ : leVal (bs.take k) = n ∧ bs.drop k = rest := by
      simpa using h
    have hlen : (bs.take k).length = k := by
      simp [List.length_take, Nat.min_eq_left hc.1]
    have hb : ∀ b ∈ bs.take k, b < 256 := by
      intro b hbmem
      have := hc.2
      rw [List.all_eq_true] at this
      simpa using this b hbmem
    calc leBytes k n ++ rest
        = leBytes (bs.take k).length (leVal (bs.take k)) ++ bs.drop k := by
          rw [hn, hrest, hlen]
      _ = bs.take k ++ bs.drop k := by rw [leBytes_leVal _ hb]
      _ = bs := List.take_append_drop k bs

/-- Modelled from the spec: the geometry value taxonomy of §2/§3 — the seven
supported geometry kinds, each 2-D or 3-D (`z` flag), parameterised by the
coordinate-component type (`Nat` = an abstract 64-bit float word for WKB,
`ℚ` for WKT). A coordinate is the list of its components. -/
inductive Geom (α : Type) where
  | point (z : Bool) (coord : List α)
  | lineString (z : Bool) (coords : List (List α))
  | polygon (z : Bool) (rings : List (List (List α)))
  | multiPoint (z : Bool) (pts : List (List α))
  | multiLineString (z : Bool) (lines : List (List (List α)))
  | multiPolygon (z : Bool) (polys : List (List (List (List α))))
  | collection (z : Bool) (geoms : List (Geom α))
deriving Repr

/-- The WKB base type code of a geometry's kind (1..7). -/
def Geom.kindBase {α : Type} : Geom α → Nat
  | .point .. => 1
  | .lineString .. => 2
  | .polygon .. => 3
  | .multiPoint .. => 4
  | .multiLineString .. => 5
  | .multiPolygon .. => 6
  | .collection .. => 7

/-- Whether a geometry is 3-D. -/
def Geom.is3d {α : Type} : Geom α → Bool
  | .point z _ => z
  | .lineString z _ => z
  | .polygon z _ => z
  | .multiPoint z _ => z
  | .multiLineString z _ => z
  | .multiPolygon z _ => z
  | .collection z _ => z

/-- A WKB header: little-endian byte-order byte then the uint32 ISO type
code (base + 1000 for Z). -/
def hdr (base : Nat) (z : Bool) : List Nat :=
  1 :: leBytes 4 (base + if z then 1000 else 0)

/-- Serialize one coordinate: its components as 8-byte LE words. -/
def encCoord (c : List Nat) : List Nat := c.flatMap (leBytes 8)

/-- Serialize a coordinate sequence: uint32 count then the coordinates. -/
def encRing (r : List (List Nat)) : List Nat :=
  leBytes 4 r.length ++ r.flatMap encCoord

mutual

/-- Modelled from the spec: the ISO WKB writer (`WKBBuilder`, io/wkb/writer,
not under src/) — §6 requires standard ISO WKB; the writer emits
little-endian. -/
def encode : Geom Nat → List Nat
  | .point z c => hdr 1 z ++ encCoord c
  | .lineString z cs => hdr 2 z ++ encRing cs
  | .polygon z rs => hdr 3 z ++ leBytes 4 rs.length ++ rs.flatMap encRing
  | .multiPoint z ps => hdr 4 z ++ leBytes 4 ps.length ++
      ps.flatMap (fun c => hdr 1 z ++ encCoord c)
  | .multiLineString z ls => hdr 5 z ++ leBytes 4 ls.length ++
      ls.flatMap (fun cs => hdr 2 z ++ encRing cs)
  | .multiPolygon z qs => hdr 6 z ++ leBytes 4 qs.length ++
      qs.flatMap (fun rs => hdr 3 z ++ leBytes 4 rs.length ++ rs.flatMap encRing)
  | .collection z gs => hdr 7 z ++ leBytes 4 gs.length ++ encodeList gs

/-- Serialize a list of geometries back-to-back. -/
def encodeList : List (Geom Nat) → List Nat
  | [] => []
  | g :: gs => encode g ++ encodeList gs

end

/-- Read one coordinate (2 or 3 components of 8 bytes each). -/
def readCoord (z : Bool) (bs : List Nat) : Option (List Nat × List Nat) :=
  (readWord 8 bs).bind fun px =>
    (readWord 8 px.2).bind fun py =>
      if z then
        (readWord 8 py.2).map fun pw => ([px.1, py.1, pw.1], pw.2)
      else some ([px.1, py.1], py.2)

/-- Read `n` items with the item parser `p`. -/
def readN {A : Type} (p : List Nat → Option (A × List Nat)) :
    Nat → List Nat → Option (List A × List Nat)
  | 0, bs => some ([], bs)
  | n + 1, bs =>
    (p bs).bind fun pa =>
      (readN p n pa.2).map fun pr => (pa.1 :: pr.1, pr.2)

/-- Read a uint32 count then that many items parsed by `p`. -/
def readCounted {A : Type} (p : List Nat → Option (A × List Nat))
    (bs : List Nat) : Option (List A × List Nat) :=
  (readWord 4 bs).bind fun pn => readN p pn.1 pn.2

/-- Read a coordinate sequence: uint32 count then that many coordinates. -/
def readRing (z : Bool) (bs : List Nat) :
    Option (List (List Nat) × List Nat) :=
  readCounted (readCoord z) bs

/-- Read a WKB header, yielding the base kind code (1..7) and the Z flag. -/
def readHdr (bs : List Nat) : Option ((Nat × Bool) × List Nat) :=
  match bs with
  | b :: rest =>
    if b = 1 then
      (readWord 4 rest).bind fun pc =>
        if 1 ≤ pc.1 ∧ pc.1 ≤ 7 then some ((pc.1, false), pc.2)
        else if 1001 ≤ pc.1 ∧ pc.1 ≤ 1007 then some ((pc.1 - 1000, true), pc.2)
        else none
    else none
  | [] => none

/-- Read an inner geometry of a multi-part kind: its own header, which must
carry the expected base code and the dimension of the enclosing geometry,
then its body parsed by `body`. -/
def readTagged {A : Type} (expectBase : Nat) (z : Bool)
    (body : List Nat → Option (A × List Nat)) (bs : List Nat) :
    Option (A × List Nat) :=
  (readHdr bs).bind fun ph =>
    if ph.1.1 = expectBase ∧ ph.1.2 = z then body ph.2 else none

/-- Read a polygon body: uint32 ring count then the rings. -/
def readPolyBody (z : Bool) (bs : List Nat) :
    Option (List (List (List Nat)) × List Nat) :=
  readCounted (readRing z) bs

/-- Modelled from the spec: the ISO WKB reader (io/wkb/reader, not under
src/) — one header, then the kind-specific body; geometry collections
recurse, bounded by fuel (callers pass more fuel than the byte length, which
always suffices since every nested geometry consumes at least one byte). -/
def decodeGeom : Nat → List Nat → Option (Geom Nat × List Nat)
  | 0, _ => none
  | fuel + 1, bs =>
    (readHdr bs).bind fun ph =>
      let base := ph.1.1
      let z := ph.1.2
      let bs1 := ph.2
      if base = 1 then
        (readCoord z bs1).map (fun p => (.point z p.1, p.2))
      else if base = 2 then
        (readRing z bs1).map (fun p => (.lineString z p.1, p.2))
      else if base = 3 then
        (readPolyBody z bs1).map (fun p => (.polygon z p.1, p.2))
      else if base = 4 then
        (readCounted (readTagged 1 z (readCoord z)) bs1).map
          (fun p => (.multiPoint z p.1, p.2))
      else if base = 5 then
        (readCounted (readTagged 2 z (readRing z)) bs1).map
          (fun p => (.multiLineString z p.1, p.2))
      else if base = 6 then
        (readCounted (readTagged 3 z (readPolyBody z)) bs1).map
          (fun p => (.multiPolygon z p.1, p.2))
      else if base = 7 then
        (readCounted (decodeGeom fuel) bs1).map
          (fun p => (.collection z p.1, p.2))
      else none

theorem encodeList_eq_flatMap (gs : List (Geom Nat)) :
    encodeList gs = gs.flatMap encode := by
  induction gs with
  | nil => rfl
  | cons g gs ih => rw [encodeList, ih]; rfl

theorem readCoord_spec {z : Bool} {bs c rest : List Nat}
    (h : readCoord z bs = some (c, rest)) : encCoord c ++ rest = bs := by
  rw [readCoord] at h
  simp only [Option.bind_eq_some] at h
  obtain ⟨⟨x, bs1⟩, hx, h⟩ := h
  obtain ⟨⟨y, bs2⟩, hy, h⟩ := h
  dsimp only at h hy
  cases z with
  | false =>
    simp only [Bool.false_eq_true, if_false, Option.some.injEq,
      Prod.mk.injEq] at h
    obtain ⟨hc, hrest⟩ := h
    subst hc; subst hrest
    rw [← readWord_spec hx, ← readWord_spec hy]
    simp [encCoord]
  | true =>
    simp only [if_true, Option.map_eq_some'] at h
    obtain ⟨⟨w, bs3⟩, hw, h⟩ := h
    dsimp only at h hw
    obtain ⟨hc, hrest⟩ : [x, y, w] = c ∧ bs3 = rest := by
      simpa using h
    subst hc; subst hrest
    rw [← readWord_spec hx, ← readWord_spec hy, ← readWord_spec hw]
    simp [encCoord]

theorem readN_spec {A : Type} {p : List Nat → Option (A × List Nat)}
    {e : A → List Nat}
    (hp : ∀ {a bs rest}, p bs = some (a, rest) → e a ++ rest = bs) :
    ∀ {n : Nat} {bs : List Nat} {as : List A} {rest : List Nat},
      readN p n bs = some (as, rest) →
        as.flatMap e ++ rest = bs ∧ as.length = n := by
  intro n
  induction n with
  | zero =>
    intro bs as rest h
    rw [readN] at h
    simp only [Option.some.injEq, Prod.mk.injEq] at h
    obtain ⟨h1, h2⟩ := h
    subst h1; subst h2
    simp
  | succ n ih =>
    intro bs as rest h
    rw [readN] at h
    simp only [Option.bind_eq_some, Option.map_eq_some'] at h
    obtain ⟨⟨a, bs1⟩, ha, ⟨as1, bs2⟩, hr, h⟩ := h
    dsimp only at h hr
    obtain ⟨h1, h2⟩ : a :: as1 = as ∧ bs2 = rest := by simpa using h
    subst h1; subst h2
    obtain ⟨hflat, hlen⟩ := ih hr
    constructor
    · rw [← hp ha, ← hflat]
      simp
    · simp [hlen]

theorem readCounted_spec {A : Type} {p : List Nat → Option (A × List Nat)}
    {e : A → List Nat}
    (hp : ∀ {a bs rest}, p bs = some (a, rest) → e a ++ rest = bs)
    {bs : List Nat} {as : List A} {rest : List Nat}
    (h : readCounted p bs = some (as, rest)) :
    leBytes 4 as.length ++ (as.flatMap e ++ rest) = bs := by
  rw [readCounted] at h
  simp only [Option.bind_eq_some] at h
  obtain ⟨⟨n, bs1⟩, hw, h⟩ := h
  dsimp only at h
  obtain ⟨hflat, hlen⟩ := readN_spec hp h
  rw [hlen, ← readWord_spec hw, hflat]

theorem readRing_spec {z : Bool} {bs : List Nat} {r : List (List Nat)}
    {rest : List Nat} (h : readRing z bs = some (r, rest)) :
    encRing r ++ rest = bs := by
  rw [readRing] at h
  have := readCounted_spec (fun {a bs' rest'} ha => readCoord_spec ha) h
  rw [encRing]
  simpa using this

theorem readHdr_spec {bs : List Nat} {base : Nat} {z : Bool}
    {rest : List Nat} (h : readHdr bs = some ((base, z), rest)) :
    hdr base z ++ rest = bs ∧ 1 ≤ base ∧ base ≤ 7 := by
  rw [readHdr.eq_def] at h
  cases bs with
  | nil => simp at h
  | cons b tail =>
    dsimp only at h
    by_cases hb : b = 1
    · rw [if_pos hb] at h
      subst hb
      simp only [Option.bind_eq_some] at h
      obtain ⟨⟨code, bs1⟩, hw, h⟩ := h
      dsimp only at h
      have ew := readWord_spec hw
      by_cases h1 : 1 ≤ code ∧ code ≤ 7
      · rw [if_pos h1] at h
        simp only [Option.some.injEq, Prod.mk.injEq] at h
        obtain ⟨⟨hbase, hz⟩, hrest⟩ := h
        subst hbase; subst hz; subst hrest
        refine ⟨?_, h1.1, h1.2⟩
        rw [hdr]
        simpa using ew
      · rw [if_neg h1] at h
        by_cases h2 : 1001 ≤ code ∧ code ≤ 1007
        · rw [if_pos h2] at h
          simp only [Option.some.injEq, Prod.mk.injEq] at h
          obtain ⟨⟨hbase, hz⟩, hrest⟩ := h
          subst hbase; subst hz; subst hrest
          refine ⟨?_, by omega, by omega⟩
          rw [hdr]
          have hcode : code - 1000 + (if (true : Bool) then 1000 else 0)
              = code := by simp; omega
          rw [hcode]
          simpa using ew
        · rw [if_neg h2] at h
          simp at h
    · rw [if_neg hb] at h
      simp at h

theorem readTagged_spec {A : Type} {expectBase : Nat} {z : Bool}
    {body : List Nat → Option (A × List Nat)} {e : A → List Nat}
    (hbody : ∀ {a bs rest}, body bs = some (a, rest) → e a ++ rest = bs)
    {bs : List Nat} {a : A} {rest : List Nat}
    (h : readTagged expectBase z body bs = some (a, rest)) :
    (hdr expectBase z ++ e a) ++ rest = bs := by
  rw [readTagged] at h
  simp only [Option.bind_eq_some] at h
  obtain ⟨⟨⟨b, z'⟩, bs1⟩, hh, h⟩ := h
  dsimp only at h
  by_cases hc : b = expectBase ∧ z' = z
  · rw [if_pos hc] at h
    obtain ⟨hb, hz⟩ := hc
    subst hb; subst hz
    have := (readHdr_spec hh).1
    rw [← this, ← hbody h]
    simp
  · rw [if_neg hc] at h
    simp at h

theorem readPolyBody_spec {z : Bool} {bs : List Nat}
    {rs : List (List (List Nat))} {rest : List Nat}
    (h : readPolyBody z bs = some (rs, rest)) :
    (leBytes 4 rs.length ++ rs.flatMap encRing) ++ rest = bs := by
  rw [readPolyBody] at h
  have := readCounted_spec (fun {a bs' rest'} ha => readRing_spec ha) h
  simpa using this

theorem decodeGeom_spec : ∀ {fuel : Nat} {bs : List Nat} {g : Geom Nat}
    {rest : List Nat}, decodeGeom fuel bs = some (g, rest) →
    encode g ++ rest = bs := by
  intro fuel
  induction fuel with
  | zero => intro bs g rest h; rw [decodeGeom] at h; simp at h
  | succ fuel ih =>
    intro bs g rest h
    rw [decodeGeom] at h
    simp only [Option.bind_eq_some] at h
    obtain ⟨⟨⟨base, z⟩, bs1⟩, hh, h⟩ := h
    dsimp only at h
    obtain ⟨hbs, hlow, hhigh⟩ := readHdr_spec hh
    by_cases h1 : base = 1
    · subst h1
      rw [if_pos rfl, Option.map_eq_some'] at h
      obtain ⟨⟨c, r⟩, hc, h⟩ := h
      dsimp only at h
      obtain ⟨hg, hr⟩ : Geom.point z c = g ∧ r = rest := by simpa using h
      subst hg; subst hr
      rw [encode, List.append_assoc, readCoord_spec hc]
      exact hbs
    · rw [if_neg h1] at h
      by_cases h2 : base = 2
      · subst h2
        rw [if_pos rfl, Option.map_eq_some'] at h
        obtain ⟨⟨cs, r⟩, hc, h⟩ := h
        dsimp only at h
        obtain ⟨hg, hr⟩ : Geom.lineString z cs = g ∧ r = rest := by simpa using h
        subst hg; subst hr
        rw [encode, List.append_assoc, readRing_spec hc]
        exact hbs
      · rw [if_neg h2] at h
        by_cases h3 : base = 3
        · subst h3
          rw [if_pos rfl, Option.map_eq_some'] at h
          obtain ⟨⟨rs, r⟩, hc, h⟩ := h
          dsimp only at h
          obtain ⟨hg, hr⟩ : Geom.polygon z rs = g ∧ r = rest := by simpa using h
          subst hg; subst hr
          rw [encode]
          rw [show hdr 3 z ++ leBytes 4 rs.length ++ rs.flatMap encRing
              = hdr 3 z ++ (leBytes 4 rs.length ++ rs.flatMap encRing)
            from by simp]
          rw [List.append_assoc, readPolyBody_spec hc]
          exact hbs
        · rw [if_neg h3] at h
          by_cases h4 : base = 4
          · subst h4
            rw [if_pos rfl, Option.map_eq_some'] at h
            obtain ⟨⟨ps, r⟩, hc, h⟩ := h
            dsimp only at h
            obtain ⟨hg, hr⟩ : Geom.multiPoint z ps = g ∧ r = rest := by
              simpa using h
            subst hg; subst hr
            have hspec := readCounted_spec
              (fun {a bs' rest'} ha =>
                readTagged_spec (fun {a2 b2 r2} hb => readCoord_spec hb) ha)
              hc
            rw [encode]
            rw [show hdr 4 z ++ leBytes 4 ps.length ++
                ps.flatMap (fun c => hdr 1 z ++ encCoord c)
                = hdr 4 z ++ (leBytes 4 ps.length ++
                  ps.flatMap (fun c => hdr 1 z ++ encCoord c)) from by simp]
            rw [List.append_assoc, ← hbs]
            congr 1
          · rw [if_neg h4] at h
            by_cases h5 : base = 5
            · subst h5
              rw [if_pos rfl, Option.map_eq_some'] at h
              obtain ⟨⟨ls, r⟩, hc, h⟩ := h
              dsimp only at h
              obtain ⟨hg, hr⟩ : Geom.multiLineString z ls = g ∧ r = rest := by
                simpa using h
              subst hg; subst hr
              have hspec := readCounted_spec
                (fun {a bs' rest'} ha =>
                  readTagged_spec (fun {a2 b2 r2} hb => readRing_spec hb) ha)
                hc
              rw [encode]
              rw [show hdr 5 z ++ leBytes 4 ls.length ++
                  ls.flatMap (fun cs => hdr 2 z ++ encRing cs)
                  = hdr 5 z ++ (leBytes 4 ls.length ++
                    ls.flatMap (fun cs => hdr 2 z ++ encRing cs))
                from by simp]
              rw [List.append_assoc, ← hbs]
              congr 1
            · rw [if_neg h5] at h
              by_cases h6 : base = 6
              · subst h6
                rw [if_pos rfl, Option.map_eq_some'] at h
                obtain ⟨⟨qs, r⟩, hc, h⟩ := h
                dsimp only at h
                obtain ⟨hg, hr⟩ : Geom.multiPolygon z qs = g ∧ r = rest := by
                  simpa using h
                subst hg; subst hr
                have hspec := readCounted_spec
                  (fun {a bs' rest'} ha =>
                    readTagged_spec
                      (fun {a2 b2 r2} hb => readPolyBody_spec hb) ha)
                  hc
                rw [encode]
                rw [show hdr 6 z ++ leBytes 4 qs.length ++
                    qs.flatMap (fun rs => hdr 3 z ++ leBytes 4 rs.length ++
                      rs.flatMap encRing)
                    = hdr 6 z ++ (leBytes 4 qs.length ++
                      qs.flatMap (fun rs => hdr 3 z ++ leBytes 4 rs.length ++
                        rs.flatMap encRing)) from by simp]
                rw [List.append_assoc, ← hbs]
                congr 1
              · rw [if_neg h6] at h
                by_cases h7 : base = 7
                · subst h7
                  rw [if_pos rfl, Option.map_eq_some'] at h
                  obtain ⟨⟨gs, r⟩, hc, h⟩ := h
                  dsimp only at h
                  obtain ⟨hg, hr⟩ : Geom.collection z gs = g ∧ r = rest := by
                    simpa using h
                  subst hg; subst hr
                  have hspec := readCounted_spec
                    (fun {a bs' rest'} ha => ih ha) hc
                  rw [encode, encodeList_eq_flatMap]
                  rw [show hdr 7 z ++ leBytes 4 gs.length ++ gs.flatMap encode
                      = hdr 7 z ++ (leBytes 4 gs.length ++ gs.flatMap encode)
                    from by simp]
                  rw [List.append_assoc, ← hbs]
                  congr 1
                · rw [if_neg h7] at h
                  simp at h

/-- Element-level view of a `WKBArray`: the source doc (binary/array.rs line
21) states it is "semantically equivalent to `Vec<Option<WKB>>`", and the
codec dispatch consumes exactly this view (`arr.iter().collect()` in
io/wkb/api.rs) together with the carried metadata. -/
structure WKBColumn where
  elements : List (Option (List Nat))
  metadata : ArrayMetadata
deriving Repr

/-- `NativeType` with its `Dimension` (datatypes.rs, declared outside src/
and matched on by the src dispatch); the `z` flag is `Dimension::XY` vs
`XYZ`. `CoordType` is omitted: the interleaved/separated layout does not
affect any verified claim. -/
inductive NativeType where
  | point (z : Bool)
  | lineString (z : Bool)
  | polygon (z : Bool)
  | multiPoint (z : Bool)
  | multiLineString (z : Bool)
  | multiPolygon (z : Bool)
  | mixed (z : Bool)
  | geometryCollection (z : Bool)
  | rect
deriving Repr, DecidableEq

/-- A native geometry array as produced by the codec: its `NativeType`, the
per-slot geometries (`none` = null) and the carried metadata. -/
structure NativeColumn where
  typ : NativeType
  geoms : List (Option (Geom Nat))
  metadata : ArrayMetadata

/-- Modelled from the spec: the per-kind `from_wkb` builders
(`PointBuilder::from_wkb` etc., array/*/builder.rs, not under src/) — §4.3:
every input is parsed; nulls pass through; `check` is the per-kind admission
step; malformed bytes fail with a wrapped parse error (§7). -/
def buildGeoms (check : Geom Nat → Except GeoArrowError (Geom Nat)) :
    List (Option (List Nat)) → Except GeoArrowError (List (Option (Geom Nat)))
  | [] => .ok []
  | none :: rest => (buildGeoms check rest).map (fun gs => none :: gs)
  | some bs :: rest =>
    match decodeGeom (bs.length + 1) bs with
    | some (g, []) =>
      match check g with
      | .ok g2 => (buildGeoms check rest).map (fun gs => some g2 :: gs)
      | .error e => .error e
    | _ => .error (.general ("failed to parse WKB geometry"))

/-- Modelled from the spec: the admission step of a concrete-kind builder —
§4.3: a specific target kind "assumes homogeneity and fails with an
IncorrectType error if any input geometry's tag disagrees with the requested
kind". -/
def checkKind (base : Nat) (z : Bool) (g : Geom Nat) :
    Except GeoArrowError (Geom Nat) :=
  if g.kindBase = base ∧ g.is3d = z then .ok g
  else .error (.incorrectType ("geometry tag disagrees with requested kind"))

/-- Modelled from the spec (§4.2): promote a single-part geometry to its
multi-part variant (the `prefer_multi` behaviour). -/
def promoteMulti {α : Type} : Geom α → Geom α
  | .point z c => .multiPoint z [c]
  | .lineString z cs => .multiLineString z [cs]
  | .polygon z rs => .multiPolygon z [rs]
  | g => g

/-- Modelled from the spec: the admission step of `MixedGeometryBuilder`
(§4.3: conversion into Mixed "accepts any mixture") — any non-collection
geometry of the array's dimension, promoted to multi when `preferMulti`. -/
def checkMixed (z : Bool) (preferMulti : Bool) (g : Geom Nat) :
    Except GeoArrowError (Geom Nat) :=
  if g.kindBase = 7 then
    .error (.general ("geometry collection in mixed array"))
  else if g.is3d = z then .ok (if preferMulti then promoteMulti g else g)
  else .error (.incorrectType ("geometry dimension disagrees"))

/-- Modelled from the spec: the admission step of
`GeometryCollectionBuilder` — collections pass through; any other geometry
is wrapped into a singleton collection (upcast is "always legal and
lossless", §4.2). -/
def checkCollection (z : Bool) (preferMulti : Bool) (g : Geom Nat) :
    Except GeoArrowError (Geom Nat) :=
  if g.is3d = z then
    if g.kindBase = 7 then .ok g
    else .ok (.collection g.is3d [if preferMulti then promoteMulti g else g])
  else .error (.incorrectType ("geometry dimension disagrees"))

/-- `from_wkb` (io/wkb/api.rs lines 134-203): dispatch on the requested
`NativeType`. The six concrete kinds go through their builder
(`impl_from_wkb`, lines 25-47, which passes the input's metadata along and
no `prefer_multi`); Mixed and GeometryCollection receive the `prefer_multi`
flag; `Rect` is rejected with a General "Unexpected data type" error (lines
195-200). -/
def from_wkb (arr : WKBColumn) (t : NativeType) (preferMulti : Bool) :
    Except GeoArrowError NativeColumn :=
  match t with
  | .point z => (buildGeoms (checkKind 1 z) arr.elements).map
      (fun gs => ⟨t, gs, arr.metadata⟩)
  | .lineString z => (buildGeoms (checkKind 2 z) arr.elements).map
      (fun gs => ⟨t, gs, arr.metadata⟩)
  | .polygon z => (buildGeoms (checkKind 3 z) arr.elements).map
      (fun gs => ⟨t, gs, arr.metadata⟩)
  | .multiPoint z => (buildGeoms (checkKind 4 z) arr.elements).map
      (fun gs => ⟨t, gs, arr.metadata⟩)
  | .multiLineString z => (buildGeoms (checkKind 5 z) arr.elements).map
      (fun gs => ⟨t, gs, arr.metadata⟩)
  | .multiPolygon z => (buildGeoms (checkKind 6 z) arr.elements).map
      (fun gs => ⟨t, gs, arr.metadata⟩)
  | .mixed z => (buildGeoms (checkMixed z preferMulti) arr.elements).map
      (fun gs => ⟨t, gs, arr.metadata⟩)
  | .geometryCollection z =>
      (buildGeoms (checkCollection z preferMulti) arr.elements).map
        (fun gs => ⟨t, gs, arr.metadata⟩)
  | .rect => .error (.general ("Unexpected data type Rect"))

/-- `to_wkb` (io/wkb/api.rs lines 307-329) with the spec-modelled
`WKBBuilder` writer: serialize every slot, preserving nulls and metadata. -/
def to_wkb (arr : NativeColumn) : WKBColumn :=
  ⟨arr.geoms.map (Option.map encode), arr.metadata⟩

/-- Whether `bs` is a complete WKB encoding of a geometry satisfying `p`. -/
def decodesWith (p : Geom Nat → Bool) (bs : List Nat) : Bool :=
  match decodeGeom (bs.length + 1) bs with
  | some (g, []) => p g
  | _ => false

/-- Whether a geometry's WKB tag agrees with the target native type (for
Mixed: any non-collection kind; for Rect: nothing). -/
def matchesTarget : NativeType → Geom Nat → Bool
  | .point z, g => g.kindBase == 1 && g.is3d == z
  | .lineString z, g => g.kindBase == 2 && g.is3d == z
  | .polygon z, g => g.kindBase == 3 && g.is3d == z
  | .multiPoint z, g => g.kindBase == 4 && g.is3d == z
  | .multiLineString z, g => g.kindBase == 5 && g.is3d == z
  | .multiPolygon z, g => g.kindBase == 6 && g.is3d == z
  | .mixed z, g => g.kindBase != 7 && g.is3d == z
  | .geometryCollection z, g => g.kindBase == 7 && g.is3d == z
  | .rect, _ => false

theorem buildGeoms_roundtrip
    {check : Geom Nat → Except GeoArrowError (Geom Nat)}
    {p : Geom Nat → Bool}
    (hc : ∀ g, p g = true → check g = .ok g) :
    ∀ {els : List (Option (List Nat))},
      els.all (fun el => el.elim true (decodesWith p)) = true →
      ∃ gs, buildGeoms check els = .ok gs ∧
        gs.map (Option.map encode) = els := by
  intro els
  induction els with
  | nil => intro _; exact ⟨[], rfl, rfl⟩
  | cons el rest ih =>
    intro hall
    rw [List.all_cons, Bool.and_eq_true] at hall
    obtain ⟨hel, hrest⟩ := hall
    obtain ⟨gs, hgs, henc⟩ := ih hrest
    cases el with
    | none =>
      refine ⟨none :: gs, ?_, ?_⟩
      · rw [buildGeoms, hgs]; rfl
      · simp [henc]
    | some bs =>
      rw [Option.elim, decodesWith] at hel
      cases hd : decodeGeom (bs.length + 1) bs with
      | none => rw [hd] at hel; simp at hel
      | some pg =>
        obtain ⟨g, r⟩ := pg
        rw [hd] at hel
        cases r with
        | cons b bs2 => simp at hel
        | nil =>
          have hp : p g = true := by simpa using hel
          have hb : encode g = bs := by
            have := decodeGeom_spec hd
            simpa using this
          refine ⟨some g :: gs, ?_, ?_⟩
          · rw [buildGeoms, hd]
            dsimp only
            rw [hc g hp]
            dsimp only
            rw [hgs]
            rfl
          · simp [henc, hb]

/-- Shared step for C1: when the admission step is the identity on all
geometries matching the target, `from_wkb` succeeds and `to_wkb` restores
the input byte-for-byte. -/
theorem roundtrip_aux {els : List (Option (List Nat))} {meta : ArrayMetadata}
    {t : NativeType} {pm : Bool}
    {check : Geom Nat → Except GeoArrowError (Geom Nat)}
    (hbranch : from_wkb ⟨els, meta⟩ t pm =
      (buildGeoms check els).map (fun gs => ⟨t, gs, meta⟩))
    (hc : ∀ g, matchesTarget t g = true → check g = .ok g)
    (hall : els.all
      (fun el => el.elim true (decodesWith (matchesTarget t))) = true) :
    ∃ arr, from_wkb ⟨els, meta⟩ t pm = .ok arr ∧ to_wkb arr = ⟨els, meta⟩ := by
  obtain ⟨gs, hgs, henc⟩ := buildGeoms_roundtrip hc hall
  refine ⟨⟨t, gs, meta⟩, ?_, ?_⟩
  · rw [hbranch, hgs]; rfl
  · rw [to_wkb]
    simp [henc]

/-- C1: for every WKB array whose elements are supported geometries whose
encoding matches the target native type, `from_wkb` (`prefer_multi = false`)
followed by `to_wkb` restores the array byte-for-byte, metadata included. -/
theorem wkb_round_trip (x : WKBColumn) (t : NativeType)
    (ht : t ≠ NativeType.rect)
    (h : x.elements.all
      (fun el => el.elim true (decodesWith (matchesTarget t))) = true) :
    ∃ arr, from_wkb x t false = .ok arr ∧ to_wkb arr = x := by
  obtain ⟨els, meta⟩ := x
  cases t with
  | point z =>
    refine roundtrip_aux rfl (fun g hg => ?_) h
    simp only [matchesTarget, Bool.and_eq_true, beq_iff_eq] at hg
    rw [checkKind, if_pos hg]
  | lineString z =>
    refine roundtrip_aux rfl (fun g hg => ?_) h
    simp only [matchesTarget, Bool.and_eq_true, beq_iff_eq] at hg
    rw [checkKind, if_pos hg]
  | polygon z =>
    refine roundtrip_aux rfl (fun g hg => ?_) h
    simp only [matchesTarget, Bool.and_eq_true, beq_iff_eq] at hg
    rw [checkKind, if_pos hg]
  | multiPoint z =>
    refine roundtrip_aux rfl (fun g hg => ?_) h
    simp only [matchesTarget, Bool.and_eq_true, beq_iff_eq] at hg
    rw [checkKind, if_pos hg]
  | multiLineString z =>
    refine roundtrip_aux rfl (fun g hg => ?_) h
    simp only [matchesTarget, Bool.and_eq_true, beq_iff_eq] at hg
    rw [checkKind, if_pos hg]
  | multiPolygon z =>
    refine roundtrip_aux rfl (fun g hg => ?_) h
    simp only [matchesTarget, Bool.and_eq_true, beq_iff_eq] at hg
    rw [checkKind, if_pos hg]
  | mixed z =>
    refine roundtrip_aux rfl (fun g hg => ?_) h
    simp only [matchesTarget, Bool.and_eq_true, bne_iff_ne, beq_iff_eq] at hg
    rw [checkMixed, if_neg hg.1, if_pos hg.2]
    rfl
  | geometryCollection z =>
    refine roundtrip_aux rfl (fun g hg => ?_) h
    simp only [matchesTarget, Bool.and_eq_true, beq_iff_eq] at hg
    rw [checkCollection, if_pos hg.2, if_pos hg.1]
  | rect => exact absurd rfl ht

/-- The ISO WKB bytes of the 2-D point whose coordinate words are zero. -/
def pointBytes : List Nat :=
  [1, 1, 0, 0, 0] ++ List.replicate 16 0

/-- Witness for C1 on a one-point array. -/
theorem wkb_round_trip_witness :
    (NativeType.point false ≠ NativeType.rect ∧
      (WKBColumn.mk [some pointBytes] default).elements.all
        (fun el => el.elim true
          (decodesWith (matchesTarget (NativeType.point false)))) = true) ∧
    ∃ arr, from_wkb ⟨[some pointBytes], default⟩ (NativeType.point false)
        false = .ok arr ∧
      to_wkb arr = ⟨[some pointBytes], default⟩ :=
  ⟨⟨by decide, by decide⟩,
    wkb_round_trip ⟨[some pointBytes], default⟩ (NativeType.point false)
      (by decide) (by decide)⟩

theorem buildGeoms_mismatch (base : Nat) (z : Bool) :
    ∀ {els : List (Option (List Nat))},
      els.all (fun el => el.elim true (decodesWith (fun _ => true))) = true →
      els.all (fun el => el.elim true
        (decodesWith (fun g => g.kindBase == base && g.is3d == z))) = false →
      ∃ m, buildGeoms (checkKind base z) els = .error (.incorrectType m) := by
  intro els
  induction els with
  | nil => intro _ hbad; simp at hbad
  | cons el rest ih =>
    intro hany hbad
    rw [List.all_cons, Bool.and_eq_true] at hany
    obtain ⟨helany, hrestany⟩ := hany
    rw [List.all_cons] at hbad
    cases el with
    | none =>
      have hrestbad : rest.all (fun el => el.elim true
          (decodesWith (fun g => g.kindBase == base && g.is3d == z)))
          = false := by simpa using hbad
      obtain ⟨m, hm⟩ := ih hrestany hrestbad
      refine ⟨m, ?_⟩
      rw [buildGeoms, hm]
      rfl
    | some bs =>
      rw [Option.elim, decodesWith] at helany
      cases hd : decodeGeom (bs.length + 1) bs with
      | none => rw [hd] at helany; simp at helany
      | some pg =>
        obtain ⟨g, r⟩ := pg
        rw [hd] at helany
        cases r with
        | cons b bs2 => simp at helany
        | nil =>
          by_cases hmatch : g.kindBase = base ∧ g.is3d = z
          · have hhead : decodesWith
                (fun g => g.kindBase == base && g.is3d == z) bs = true := by
              rw [decodesWith, hd]
              simp [hmatch.1, hmatch.2]
            have hrestbad : rest.all (fun el => el.elim true
                (decodesWith (fun g => g.kindBase == base && g.is3d == z)))
                = false := by simpa [hhead] using hbad
            obtain ⟨m, hm⟩ := ih hrestany hrestbad
            refine ⟨m, ?_⟩
            rw [buildGeoms, hd]
            dsimp only
            rw [checkKind, if_pos hmatch]
            dsimp only
            rw [hm]
            rfl
          · refine ⟨"geometry tag disagrees with requested kind", ?_⟩
            rw [buildGeoms, hd]
            dsimp only
            rw [checkKind, if_neg hmatch]

/-- The base code and dimension of a concrete (non-Mixed, non-collection,
non-Rect) target, as in the `impl_from_wkb` dispatch. -/
def concreteBase : NativeType → Option (Nat × Bool)
  | .point z => some (1, z)
  | .lineString z => some (2, z)
  | .polygon z => some (3, z)
  | .multiPoint z => some (4, z)
  | .multiLineString z => some (5, z)
  | .multiPolygon z => some (6, z)
  | _ => none

/-- C6: for every WKB array of well-formed geometries and concrete target
kind, `from_wkb` fails with IncorrectType when some valid input's tag
disagrees with the requested kind, and succeeds when all valid inputs
match. -/
theorem from_wkb_homogeneity (x : WKBColumn) (t : NativeType) (pm : Bool)
    (base : Nat) (z : Bool) (hT : concreteBase t = some (base, z))
    (hdec : x.elements.all
      (fun el => el.elim true (decodesWith (fun _ => true))) = true) :
    (x.elements.all (fun el => el.elim true
        (decodesWith (matchesTarget t))) = false →
      ∃ m, from_wkb x t pm = .error (.incorrectType m)) ∧
    (x.elements.all (fun el => el.elim true
        (decodesWith (matchesTarget t))) = true →
      ∃ arr, from_wkb x t pm = .ok arr) := by
  have hid : ∀ g, (fun g => g.kindBase == base && g.is3d == z) g = true →
      checkKind base z g = .ok g := by
    intro g hg
    simp only [Bool.and_eq_true, beq_iff_eq] at hg
    rw [checkKind, if_pos hg]
  cases t <;> simp only [concreteBase, Option.some.injEq, Prod.mk.injEq,
    reduceCtorEq] at hT <;>
    obtain ⟨hbase, hz⟩ := hT <;> subst hbase <;> subst hz <;>
    constructor <;> intro hside
  case point.intro.left =>
    obtain ⟨m, hm⟩ := buildGeoms_mismatch _ _ hdec (by
      simpa [matchesTarget] using hside)
    exact ⟨m, by rw [from_wkb, hm]; rfl⟩
  case point.intro.right =>
    obtain ⟨gs, hgs, _⟩ := buildGeoms_roundtrip hid (by
      simpa [matchesTarget] using hside)
    exact ⟨⟨_, gs, x.metadata⟩, by rw [from_wkb, hgs]; rfl⟩
  case lineString.intro.left =>
    obtain ⟨m, hm⟩ := buildGeoms_mismatch _ _ hdec (by
      simpa [matchesTarget] using hside)
    exact ⟨m, by rw [from_wkb, hm]; rfl⟩
  case lineString.intro.right =>
    obtain ⟨gs, hgs, _⟩ := buildGeoms_roundtrip hid (by
      simpa [matchesTarget] using hside)
    exact ⟨⟨_, gs, x.metadata⟩, by rw [from_wkb, hgs]; rfl⟩
  case polygon.intro.left =>
    obtain ⟨m, hm⟩ := buildGeoms_mismatch _ _ hdec (by
      simpa [matchesTarget] using hside)
    exact ⟨m, by rw [from_wkb, hm]; rfl⟩
  case polygon.intro.right =>
    obtain ⟨gs, hgs, _⟩ := buildGeoms_roundtrip hid (by
      simpa [matchesTarget] using hside)
    exact ⟨⟨_, gs, x.metadata⟩, by rw [from_wkb, hgs]; rfl⟩
  case multiPoint.intro.left =>
    obtain ⟨m, hm⟩ := buildGeoms_mismatch _ _ hdec (by
      simpa [matchesTarget] using hside)
    exact ⟨m, by rw [from_wkb, hm]; rfl⟩
  case multiPoint.intro.right =>
    obtain ⟨gs, hgs, _⟩ := buildGeoms_roundtrip hid (by
      simpa [matchesTarget] using hside)
    exact ⟨⟨_, gs, x.metadata⟩, by rw [from_wkb, hgs]; rfl⟩
  case multiLineString.intro.left =>
    obtain ⟨m, hm⟩ := buildGeoms_mismatch _ _ hdec (by
      simpa [matchesTarget] using hside)
    exact ⟨m, by rw [from_wkb, hm]; rfl⟩
  case multiLineString.intro.right =>
    obtain ⟨gs, hgs, _⟩ := buildGeoms_roundtrip hid (by
      simpa [matchesTarget] using hside)
    exact ⟨⟨_, gs, x.metadata⟩, by rw [from_wkb, hgs]; rfl⟩
  case multiPolygon.intro.left =>
    obtain ⟨m, hm⟩ := buildGeoms_mismatch _ _ hdec (by
      simpa [matchesTarget] using hside)
    exact ⟨m, by rw [from_wkb, hm]; rfl⟩
  case multiPolygon.intro.right =>
    obtain ⟨gs, hgs, _⟩ := buildGeoms_roundtrip hid (by
      simpa [matchesTarget] using hside)
    exact ⟨⟨_, gs, x.metadata⟩, by rw [from_wkb, hgs]; rfl⟩

/-- The ISO WKB bytes of the empty 2-D linestring. -/
def lineBytes : List Nat := [1, 2, 0, 0, 0, 0, 0, 0, 0]

/-- Witness for C6: a linestring element fed to the Point target fails with
IncorrectType. -/
theorem from_wkb_homogeneity_witness :
    (concreteBase (NativeType.point false) = some (1, false) ∧
      (WKBColumn.mk [some lineBytes] default).elements.all
        (fun el => el.elim true (decodesWith (fun _ => true))) = true ∧
      (WKBColumn.mk [some lineBytes] default).elements.all
        (fun el => el.elim true
          (decodesWith (matchesTarget (NativeType.point false)))) = false) ∧
    ∃ m, from_wkb ⟨[some lineBytes], default⟩ (NativeType.point false) false
      = .error (.incorrectType m) :=
  ⟨⟨by decide, by decide, by decide⟩,
    (from_wkb_homogeneity ⟨[some lineBytes], default⟩ (NativeType.point false)
      false 1 false (by decide) (by decide)).1 (by decide)⟩

/-- Whether a result failed with the NotYetImplemented error kind. -/
def isNotYetImplementedErr {α : Type} (r : Except GeoArrowError α) : Bool :=
  match r with
  | .error (.notYetImplemented _) => true
  | _ => false

/-- C7 counterexample: on the empty WKB array, `from_wkb` at the Rect target
fails, but with a General error, not the NotYetImplemented kind. -/
theorem from_wkb_rect_not_nyi :
    isNotYetImplementedErr
        (from_wkb ⟨[], default⟩ NativeType.rect false) = false ∧
      isOkE (from_wkb ⟨[], default⟩ NativeType.rect false) = false :=
  ⟨rfl, rfl⟩

/-- C7 (amended): for every WKB array, `from_wkb` at the unsupported Rect
target fails, and the error is of the General kind ("Unexpected data
type"). -/
theorem from_wkb_rect_general (x : WKBColumn) (pm : Bool) :
    from_wkb x NativeType.rect pm =
      .error (.general ("Unexpected data type Rect")) := rfl

theorem except_map_ok {α β : Type} {f : α → β}
    {e : Except GeoArrowError α} {b : β}
    (h : e.map f = .ok b) : ∃ a, e = .ok a ∧ f a = b := by
  cases e with
  | ok a => exact ⟨a, rfl, by simpa [Except.map] using h⟩
  | error e => simp [Except.map] at h

/-- C9: extension metadata is propagated unchanged by slicing and by the
WKB-to-native conversion. -/
theorem metadata_propagation (a : WKBArray) (o l : Nat)
    (x : WKBColumn) (t : NativeType) (pm : Bool) (r : NativeColumn)
    (hs : o + l ≤ a.len) (hf : from_wkb x t pm = .ok r) :
    (a.slice o l).map WKBArray.metadata = some a.metadata ∧
      r.metadata = x.metadata := by
  constructor
  · rw [WKBArray.slice, if_pos hs]; rfl
  · cases t <;> rw [from_wkb] at hf
    case rect => exact absurd hf (by simp)
    all_goals (obtain ⟨gs, he, hb⟩ := except_map_ok hf; rw [← hb])

/-- Witness for C9 at a concrete slice and conversion. -/
theorem metadata_propagation_witness :
    ((0 : Nat) + 1 ≤ WKBArray.len ⟨[0, 2], [9, 9], none, default, false⟩ ∧
      from_wkb ⟨[none], default⟩ (NativeType.point false) false =
        .ok ⟨NativeType.point false, [none], default⟩) ∧
    ((WKBArray.slice ⟨[0, 2], [9, 9], none, default, false⟩ 0 1).map
        WKBArray.metadata =
          some (WKBArray.metadata ⟨[0, 2], [9, 9], none, default, false⟩) ∧
      NativeColumn.metadata ⟨NativeType.point false, [none], default⟩ =
        WKBColumn.metadata ⟨[none], default⟩) :=
  ⟨⟨by decide, rfl⟩,
    metadata_propagation ⟨[0, 2], [9, 9], none, default, false⟩ 0 1
      ⟨[none], default⟩ (NativeType.point false) false
      ⟨NativeType.point false, [none], default⟩ (by decide) rfl⟩

/-
The WKT ingestion path. The `FromWKT` impls are in src
(io/geozero/api/wkt.rs); the geozero WKT visitor, the
`MixedGeometryStreamBuilder` and the `Downcast` logic live outside src/ and
are modelled from the spec (§4.4, §4.2). The modelled WKT fragment is
2-D upper-case POINT / LINESTRING / POLYGON / MULTIPOINT / MULTILINESTRING /
MULTIPOLYGON with decimal coordinates.
-/

/-- One WKT token. -/
inductive WktTok where
  | lparen
  | rparen
  | comma
  | word (s : String)
  | num (q : ℚ)
deriving Repr, DecidableEq

/-- Value of a digit-character run. -/
def natOfDigits (ds : List Char) : Nat :=
  ds.foldl (fun acc c => acc * 10 + (c.toNat - 48)) 0

/-- Tokenize WKT text: parentheses, commas, upper/lower-case words, and
(optionally signed, optionally fractional) decimal numbers. -/
def tokenize : Nat → List Char → Option (List WktTok)
  | _, [] => some []
  | 0, _ => none
  | fuel + 1, c :: cs =>
    if c = ' ' then tokenize fuel cs
    else if c = '(' then (tokenize fuel cs).map (fun ts => .lparen :: ts)
    else if c = ')' then (tokenize fuel cs).map (fun ts => .rparen :: ts)
    else if c = ',' then (tokenize fuel cs).map (fun ts => .comma :: ts)
    else if c.isAlpha then
      let sp := (c :: cs).span Char.isAlpha
      (tokenize fuel sp.2).map (fun ts => .word (String.mk sp.1) :: ts)
    else if c = '-' ∨ c.isDigit then
      let start := if c = '-' then cs else c :: cs
      let ip := start.span Char.isDigit
      match ip.2 with
      | '.' :: rest1 =>
        let fp := rest1.span Char.isDigit
        let q : ℚ := (natOfDigits ip.1 : ℚ) +
          (natOfDigits fp.1 : ℚ) / ((10 : ℚ) ^ fp.1.length)
        (tokenize fuel fp.2).map
          (fun ts => .num (if c = '-' then -q else q) :: ts)
      | rest1 =>
        let q : ℚ := (natOfDigits ip.1 : ℚ)
        (tokenize fuel rest1).map
          (fun ts => .num (if c = '-' then -q else q) :: ts)
    else none

/-- Collect the leading run of number tokens. -/
def spanNums : List WktTok → List ℚ × List WktTok
  | .num q :: rest => let pr := spanNums rest; (q :: pr.1, pr.2)
  | ts => ([], ts)

/-- One coordinate: a nonempty run of numbers. -/
def parseCoord (ts : List WktTok) : Option (List ℚ × List WktTok) :=
  match spanNums ts with
  | ([], _) => none
  | (qs, rest) => some (qs, rest)

/-- A comma-separated nonempty list of items. -/
def parseSep {A : Type} (p : List WktTok → Option (A × List WktTok)) :
    Nat → List WktTok → Option (List A × List WktTok)
  | 0, _ => none
  | fuel + 1, ts =>
    match p ts with
    | some (a, .comma :: rest) =>
      (parseSep p fuel rest).map (fun pr => (a :: pr.1, pr.2))
    | some (a, rest) => some ([a], rest)
    | none => none

/-- A parenthesized item. -/
def parseParen {A : Type} (p : List WktTok → Option (A × List WktTok))
    (ts : List WktTok) : Option (A × List WktTok) :=
  match ts with
  | .lparen :: rest =>
    match p rest with
    | some (a, .rparen :: rest2) => some (a, rest2)
    | _ => none
  | _ => none

/-- Modelled from the spec: the streaming WKT geometry visitor (§4.4; the
geozero reader is outside src/), on the 2-D fragment used by the scenario:
tag word then nested parenthesized coordinate structure, consuming the whole
string. -/
def parseWkt (s : String) : Option (Geom ℚ) :=
  let chars := s.toList
  match tokenize (chars.length + 1) chars with
  | none => none
  | some ts =>
    let fuel := ts.length + 1
    match ts with
    | .word w :: rest =>
      if w = "POINT" then
        match parseParen parseCoord rest with
        | some (c, []) => some (.point false c)
        | _ => none
      else if w = "LINESTRING" then
        match parseParen (parseSep parseCoord fuel) rest with
        | some (cs, []) => some (.lineString false cs)
        | _ => none
      else if w = "POLYGON" then
        match parseParen (parseSep (parseParen (parseSep parseCoord fuel))
            fuel) rest with
        | some (rs, []) => some (.polygon false rs)
        | _ => none
      else if w = "MULTIPOINT" then
        match parseParen (parseSep parseCoord fuel) rest with
        | some (cs, []) => some (.multiPoint false cs)
        | _ => none
      else if w = "MULTILINESTRING" then
        match parseParen (parseSep (parseParen (parseSep parseCoord fuel))
            fuel) rest with
        | some (ls, []) => some (.multiLineString false ls)
        | _ => none
      else if w = "MULTIPOLYGON" then
        match parseParen (parseSep (parseParen (parseSep
            (parseParen (parseSep parseCoord fuel)) fuel)) fuel) rest with
        | some (qs, []) => some (.multiPolygon false qs)
        | _ => none
      else none
    | _ => none

/-- A frozen `MixedGeometryArray` over rational coordinates: per-slot
geometries (none = null) plus metadata. -/
structure MixedArrayQ where
  geoms : List (Option (Geom ℚ))
  metadata : ArrayMetadata
deriving Repr

/-- A downcast result: the narrowed native type with the slots and
metadata. -/
structure NativeColumnQ where
  typ : NativeType
  geoms : List (Option (Geom ℚ))
  metadata : ArrayMetadata
deriving Repr

/-- Modelled from the spec: pushing each parsed geometry into the
`MixedGeometryStreamBuilder` (outside src/): `prefer_multi` promotes
single-part geometries (§4.2/§4.3); the geometry's dimension must be the
builder's; parse failures surface as wrapped errors (§7). -/
def pushAllWkt (z : Bool) (preferMulti : Bool) :
    List (Option String) → Except GeoArrowError (List (Option (Geom ℚ)))
  | [] => .ok []
  | none :: rest =>
    (pushAllWkt z preferMulti rest).map (fun gs => none :: gs)
  | some s :: rest =>
    match parseWkt s with
    | some g =>
      if g.is3d = z then
        (pushAllWkt z preferMulti rest).map
          (fun gs => some (if preferMulti then promoteMulti g else g) :: gs)
      else .error (.incorrectType ("geometry dimension disagrees"))
    | none => .error (.general ("failed to parse WKT"))

/-- `FromWKT for MixedGeometryArray` (io/geozero/api/wkt.rs lines 29-52):
walk the string array, parsing valid slots into the stream builder and
pushing nulls for invalid slots, then finish. -/
def from_wkt (arr : List (Option String)) (z : Bool) (meta : ArrayMetadata)
    (preferMulti : Bool) : Except GeoArrowError MixedArrayQ :=
  (pushAllWkt z preferMulti arr).map (fun gs => ⟨gs, meta⟩)

/-- The concrete `NativeType` for a base kind code. -/
def kindType : Nat → Bool → NativeType
  | 1, z => .point z
  | 2, z => .lineString z
  | 3, z => .polygon z
  | 4, z => .multiPoint z
  | 5, z => .multiLineString z
  | 6, z => .multiPolygon z
  | _, z => .mixed z

/-- Modelled from the spec: `Downcast` for `MixedGeometryArray`
(algorithm/native/downcast.rs, outside src/) — §4.2: scan the valid slots'
discriminants; when they all resolve to the same concrete kind the array
narrows to that kind, otherwise it stays Mixed. The boolean argument selects
small offsets in the source and does not affect the resulting kind. -/
def downcastMixed (a : MixedArrayQ) (_smallOffsets : Bool) : NativeColumnQ :=
  let valid := a.geoms.filterMap id
  let z := (valid.map Geom.is3d).headD false
  match valid.map Geom.kindBase with
  | [] => ⟨.mixed z, a.geoms, a.metadata⟩
  | k :: ks =>
    if ks.all (fun x => x == k) then ⟨kindType k z, a.geoms, a.metadata⟩
    else ⟨.mixed z, a.geoms, a.metadata⟩

/-- C8 (Scenario A): parsing the single WKT string "POINT (30 10)" with
`prefer_multi = false` and then downcasting yields a Point array of length 1
whose only element is the 2-D point with x = 30 and y = 10. -/
theorem scenario_a_wkt :
    from_wkt [some ("POINT (30 10)")] false default false =
        .ok ⟨[some (Geom.point false [30, 10])], default⟩ ∧
      downcastMixed ⟨[some (Geom.point false [30, 10])], default⟩ true =
        ⟨NativeType.point false, [some (Geom.point false [30, 10])],
          default⟩ ∧
      (downcastMixed ⟨[some (Geom.point false [30, 10])], default⟩
        true).geoms.length = 1 := by
  refine ⟨?_, rfl, rfl⟩
  rfl

end GeoArrow
